import Mathlib

/-!
Verification development for the SlugSyllabus repository (src/app/llm.py and
src/app/main.py).  The Python code is shallowly embedded: Python `str` values
are modelled as `List Char`, the JSON library (`json.loads` / `json.dumps`)
is modelled by an executable parser and serializer over an inductive `Json`
type, file-system state (uploads directory, cache directory, index file) is
modelled as explicit data threaded through the functions, and the external
language model is a function parameter.  Exceptions are modelled with
`Except`.
-/

/-- Python `str` values are modelled as lists of characters. -/
abbrev Str := List Char

/-- Characters stripped by Python's `str.strip()` (ASCII whitespace). -/
def pySpace (c : Char) : Bool :=
  c = ' ' || c = '\t' || c = '\n' || c = '\r' || c = '\x0b' || c = '\x0c'

/-- Model of Python `str.strip()`: remove leading and trailing whitespace. -/
def pyStrip (s : Str) : Str :=
  ((s.dropWhile pySpace).reverse.dropWhile pySpace).reverse

/-- Model of Python `str.lower()` (ASCII letters). -/
def lowerL (s : Str) : Str := s.map Char.toLower

/-- Decimal digit character for a value below ten. -/
def decChar : Nat → Char
  | 0 => '0' | 1 => '1' | 2 => '2' | 3 => '3' | 4 => '4'
  | 5 => '5' | 6 => '6' | 7 => '7' | 8 => '8' | _ => '9'

/-- Little-endian decimal digits of `n`, with fuel for termination.  Empty for
`n = 0`. -/
def decDigits : Nat → Nat → Str
  | 0, _ => []
  | _, 0 => []
  | fuel + 1, n => decChar (n % 10) :: decDigits fuel (n / 10)

/-- Model of Python `str(n)` for a natural number. -/
def decStr (n : Nat) : Str :=
  if n = 0 then ['0'] else (decDigits n n).reverse

/-- Model of Python `str(i)` for an integer. -/
def intStr (i : Int) : Str :=
  if i < 0 then '-' :: decStr i.natAbs else decStr i.natAbs

/-- Numeric value of a decimal digit character. -/
def charVal (c : Char) : Nat := c.toNat - 48

/-- Value of a little-endian digit list (proof helper for decimal rendering). -/
def decVal : Str → Nat
  | [] => 0
  | c :: cs => charVal c + 10 * decVal cs

/-- JSON values, modelling the results of Python `json.loads` (integer-only
numeric fragment; object key order is insertion order, as in Python dicts). -/
inductive Json where
  | null
  | bool (b : Bool)
  | int (n : Int)
  | str (s : Str)
  | arr (xs : List Json)
  | obj (kvs : List (Str × Json))

/-- Indentation produced by `json.dumps(..., indent=2)` at nesting level
`lvl`. -/
def indentSp (lvl : Nat) : Str := List.replicate (2 * lvl) ' '

/-- Lowercase hexadecimal digit. -/
def hexChar (n : Nat) : Char :=
  if n < 10 then decChar n
  else if n = 10 then 'a' else if n = 11 then 'b' else if n = 12 then 'c'
  else if n = 13 then 'd' else if n = 14 then 'e' else 'f'

/-- Escaping of one character inside a JSON string literal, as done by
`json.dumps(..., ensure_ascii=False)`: only `"`, `\` and control characters
are escaped; all other characters (including non-ASCII) are kept. -/
def escChar (c : Char) : Str :=
  if c = '"' then ['\\', '"']
  else if c = '\\' then ['\\', '\\']
  else if c = '\n' then ['\\', 'n']
  else if c = '\t' then ['\\', 't']
  else if c = '\r' then ['\\', 'r']
  else if c = '\x08' then ['\\', 'b']
  else if c = '\x0c' then ['\\', 'f']
  else if c.toNat < 32 then
    ['\\', 'u', '0', '0', hexChar (c.toNat / 16), hexChar (c.toNat % 16)]
  else [c]

/-- Serialization of a string as a JSON string literal. -/
def dumpStr (s : Str) : Str :=
  '"' :: s.foldr (fun c acc => escChar c ++ acc) ['"']

/-- Python's `"\n\n".join` separator-joining of a list of strings. -/
def joinSep (sep : Str) : List Str → Str
  | [] => []
  | [x] => x
  | x :: y :: ys => x ++ sep ++ joinSep sep (y :: ys)

mutual

/-- Model of `json.dumps(v, indent=2, ensure_ascii=False)` at nesting level
`lvl`. -/
def dumpsV : Nat → Json → Str
  | _, Json.null => "null".data
  | _, Json.bool true => "true".data
  | _, Json.bool false => "false".data
  | _, Json.int n => intStr n
  | _, Json.str s => dumpStr s
  | lvl, Json.arr xs =>
    if xs.isEmpty then "[]".data
    else
      "[\n".data ++ joinSep (",\n".data) (dumpsArr (lvl + 1) xs)
        ++ "\n".data ++ indentSp lvl ++ "]".data
  | lvl, Json.obj kvs =>
    if kvs.isEmpty then "\x7b\x7d".data
    else
      "\x7b\n".data ++ joinSep (",\n".data) (dumpsObj (lvl + 1) kvs)
        ++ "\n".data ++ indentSp lvl ++ "\x7d".data

/-- Serialized, indented lines of the elements of a JSON array. -/
def dumpsArr : Nat → List Json → List Str
  | _, [] => []
  | lvl, x :: xs => (indentSp lvl ++ dumpsV lvl x) :: dumpsArr lvl xs

/-- Serialized, indented `"key": value` lines of a JSON object. -/
def dumpsObj : Nat → List (Str × Json) → List Str
  | _, [] => []
  | lvl, kv :: kvs =>
    (indentSp lvl ++ dumpStr kv.1 ++ ": ".data ++ dumpsV lvl kv.2)
      :: dumpsObj lvl kvs

end

/-- Model of `json.dumps(v, indent=2, ensure_ascii=False)`. -/
def dumps (v : Json) : Str := dumpsV 0 v

/-- JSON whitespace accepted between tokens by `json.loads`. -/
def jsonWs (c : Char) : Bool := c = ' ' || c = '\t' || c = '\n' || c = '\r'

/-- Hexadecimal digit test. -/
def isHexDigit (c : Char) : Bool :=
  c.isDigit || ('a' ≤ c && c ≤ 'f') || ('A' ≤ c && c ≤ 'F')

/-- Hexadecimal digit value. -/
def hexVal (c : Char) : Nat :=
  if c.isDigit then c.toNat - 48
  else if 'a' ≤ c && c ≤ 'f' then c.toNat - 87
  else c.toNat - 55

/-- Parse the body of a JSON string literal (opening quote already consumed),
returning the decoded string and the remaining input. -/
def parseStringAux : Str → Str → Option (Str × Str)
  | [], _ => none
  | c :: cs, acc =>
    if c = '"' then some (acc.reverse, cs)
    else if c = '\\' then
      match cs with
      | [] => none
      | e :: cs2 =>
        if e = '"' then parseStringAux cs2 ('"' :: acc)
        else if e = '\\' then parseStringAux cs2 ('\\' :: acc)
        else if e = '/' then parseStringAux cs2 ('/' :: acc)
        else if e = 'b' then parseStringAux cs2 ('\x08' :: acc)
        else if e = 'f' then parseStringAux cs2 ('\x0c' :: acc)
        else if e = 'n' then parseStringAux cs2 ('\n' :: acc)
        else if e = 'r' then parseStringAux cs2 ('\r' :: acc)
        else if e = 't' then parseStringAux cs2 ('\t' :: acc)
        else if e = 'u' then
          match cs2 with
          | h1 :: h2 :: h3 :: h4 :: cs3 =>
            if isHexDigit h1 && isHexDigit h2 && isHexDigit h3 && isHexDigit h4 then
              parseStringAux cs3
                (Char.ofNat
                  (hexVal h1 * 4096 + hexVal h2 * 256 + hexVal h3 * 16 + hexVal h4)
                  :: acc)
            else none
          | _ => none
        else none
    else if c.toNat < 32 then none
    else parseStringAux cs (c :: acc)

/-- Parse a JSON string literal body after the opening quote. -/
def parseString (s : Str) : Option (Str × Str) := parseStringAux s []

/-- Big-endian decimal value of a digit list. -/
def decValBE (s : Str) : Nat := s.foldl (fun a c => 10 * a + charVal c) 0

/-- Parse a JSON number (integer-only model of the fragment `json.loads`
accepts; a fractional part or exponent makes the model parser fail). -/
def parseNum (s : Str) : Option (Json × Str) :=
  let neg : Bool := match s with | c :: _ => c == '-' | [] => false
  let s1 := if neg then s.drop 1 else s
  let ds := s1.takeWhile Char.isDigit
  let rest := s1.dropWhile Char.isDigit
  if ds.isEmpty then none
  else if 1 < ds.length && ds.headD '0' = '0' then none
  else
    match rest with
    | '.' :: _ => none
    | 'e' :: _ => none
    | 'E' :: _ => none
    | _ =>
      let n : Int := Int.ofNat (decValBE ds)
      some (Json.int (if neg then -n else n), rest)

/-- Insert a key/value pair as Python dict insertion does during
`json.loads`: a duplicate key keeps its original position and takes the new
value. -/
def insertKV : List (Str × Json) → Str → Json → List (Str × Json)
  | [], k, v => [(k, v)]
  | (k', v') :: rest, k, v =>
    if k' = k then (k', v) :: rest else (k', v') :: insertKV rest k v

/-- Parser modes for the fueled recursive-descent JSON parser. -/
inductive PM where
  | val
  | objStart
  | members (acc : List (Str × Json))
  | arrStart
  | elems (acc : List Json)

/-- Fueled recursive-descent parser modelling `json.loads` (one step of
fuel per production).  Returns the parsed value and the remaining input. -/
def parseStep : Nat → PM → Str → Option (Json × Str)
  | 0, _, _ => none
  | fuel + 1, PM.val, s =>
    match s.dropWhile jsonWs with
    | [] => none
    | c :: cs =>
      if c = '\x7b' then parseStep fuel PM.objStart cs
      else if c = '[' then parseStep fuel PM.arrStart cs
      else if c = '"' then (parseString cs).map (fun p => (Json.str p.1, p.2))
      else if c = 'n' then
        if cs.take 3 = "ull".data then some (Json.null, cs.drop 3) else none
      else if c = 't' then
        if cs.take 3 = "rue".data then some (Json.bool true, cs.drop 3) else none
      else if c = 'f' then
        if cs.take 4 = "alse".data then some (Json.bool false, cs.drop 4) else none
      else parseNum (c :: cs)
  | fuel + 1, PM.objStart, s =>
    match s.dropWhile jsonWs with
    | c :: cs =>
      if c = '\x7d' then some (Json.obj [], cs)
      else parseStep fuel (PM.members []) (c :: cs)
    | [] => none
  | fuel + 1, PM.members acc, s =>
    match s.dropWhile jsonWs with
    | c :: cs =>
      if c = '"' then
        match parseString cs with
        | none => none
        | some (k, rest) =>
          match rest.dropWhile jsonWs with
          | ':' :: rest2 =>
            match parseStep fuel PM.val rest2 with
            | none => none
            | some (v, rest3) =>
              match rest3.dropWhile jsonWs with
              | ',' :: rest4 => parseStep fuel (PM.members (insertKV acc k v)) rest4
              | '\x7d' :: rest4 => some (Json.obj (insertKV acc k v), rest4)
              | _ => none
          | _ => none
      else none
    | [] => none
  | fuel + 1, PM.arrStart, s =>
    match s.dropWhile jsonWs with
    | ']' :: cs => some (Json.arr [], cs)
    | _ => parseStep fuel (PM.elems []) s
  | fuel + 1, PM.elems acc, s =>
    match parseStep fuel PM.val s with
    | none => none
    | some (v, rest) =>
      match rest.dropWhile jsonWs with
      | ',' :: rest2 => parseStep fuel (PM.elems (acc ++ [v])) rest2
      | ']' :: rest2 => some (Json.arr (acc ++ [v]), rest2)
      | _ => none

/-- Model of `json.loads`: parse one JSON document; trailing whitespace is
allowed, any other trailing input is an error. -/
def parseJson (s : Str) : Option Json :=
  match parseStep (4 * s.length + 16) PM.val s with
  | some (v, rest) => if (rest.dropWhile jsonWs).isEmpty then some v else none
  | none => none

/-! ## Embedding of `src/app/llm.py` -/

/-- Output mode of a prompt spec (`"text"` or `"json"` in the source). -/
inductive Mode where
  | text
  | json
deriving DecidableEq

/-- One entry of `PROMPT_SPECS`: output mode, instruction text, and (for json
mode) the JSON template; `schema` is unused in text mode. -/
structure PromptSpec where
  mode : Mode
  prompt : Str
  schema : Json

/-- The `PROMPT_SPECS` catalog of `llm.py`, in source order. -/
def PROMPT_SPECS : List (Str × PromptSpec) :=
  [ ("tldr".data,
     { mode := Mode.text
       prompt := "Summarize this syllabus in 6 concise bullet points.".data
       schema := Json.null }),
    ("workload".data,
     { mode := Mode.json
       prompt := "Estimate workload and identify heavy weeks from the syllabus.".data
       schema := Json.obj
         [ ("hours_per_week_estimate".data, Json.null),
           ("workload_shape".data, Json.null),
           ("heavy_weeks".data, Json.arr []),
           ("why_heavy".data, Json.str []),
           ("evidence_quotes".data, Json.arr []) ] }),
    ("grading".data,
     { mode := Mode.json
       prompt := "Extract grading breakdown and major deliverables from the syllabus.".data
       schema := Json.obj
         [ ("grading_components".data, Json.arr []),
           ("deliverables".data, Json.arr []),
           ("late_policy".data, Json.str []),
           ("collaboration_policy".data, Json.str []),
           ("evidence_quotes".data, Json.arr []) ] }),
    ("prereqs".data,
     { mode := Mode.json
       prompt := "Infer implied prerequisites and recommended background from the syllabus text.".data
       schema := Json.obj
         [ ("official_prereqs".data, Json.arr []),
           ("implied_background".data, Json.arr []),
           ("tools_languages".data, Json.arr []),
           ("math_background".data, Json.arr []),
           ("evidence_quotes".data, Json.arr []) ] }) ]

/-- `list(PROMPT_SPECS.keys())` in source order. -/
def prompt_keys : List Str := PROMPT_SPECS.map (fun e => e.1)

/-- The fixed fallback message `run_llm` returns on empty input text. -/
def no_text_msg : Str :=
  "No text could be extracted from this PDF (or it’s scanned).".data

/-- `_wrap_text(task, text)` of `llm.py`. -/
def wrap_text (task text : Str) : Str :=
  "You analyze university course syllabi.\n\nTASK:\n".data ++ task
    ++ "\n\nSYLLABUS TEXT:\n".data ++ text ++ "\n".data

/-- `_wrap_json(task, schema_json, text)` of `llm.py`. -/
def wrap_json (task schema_json text : Str) : Str :=
  "You are a careful information extraction system for university syllabi.\n\nTASK:\n".data
    ++ task
    ++ "\n\nOUTPUT:\nReturn ONLY valid JSON matching this template. Use null/empty arrays when unknown. Do not invent facts.\nJSON TEMPLATE:\n".data
    ++ schema_json
    ++ "\n\nRULES:\n- evidence_quotes: short verbatim snippets (<=25 words) from the syllabus when possible.\n- If the syllabus doesn't say it, leave it null/[]/\"\".\n\nSYLLABUS TEXT:\n".data
    ++ text ++ "\n".data

/-- The backtick character. -/
def bq : Char := Char.ofNat 96

/-- The three-backtick code-fence marker. -/
def fence3 : Str := [bq, bq, bq]

/-- Model of Python `s.split("```")`: split on non-overlapping occurrences of
the fence marker, scanning left to right (`acc` is the current piece,
reversed). -/
def split_fence : Str → Str → List Str
  | c1 :: c2 :: c3 :: cs, acc =>
    if c1 = bq && c2 = bq && c3 = bq then acc.reverse :: split_fence cs []
    else split_fence (c2 :: c3 :: cs) (c1 :: acc)
  | c :: cs, acc => split_fence cs (c :: acc)
  | [], acc => [acc.reverse]

/-- The code-fence step of `_extract_json`: if the stripped text starts with
a fence marker and splitting yields at least three parts, keep the stripped
first fenced part. -/
def fence_extract (s2 : Str) : Str :=
  if s2.take 3 = fence3 then
    let parts := split_fence s2 []
    if 3 ≤ parts.length then pyStrip (parts.getD 1 []) else s2
  else s2

/-- Model of Python `s.find("{")`: index of the first opening brace. -/
def first_brace (s : Str) : Option Nat := s.findIdx? (fun c => c == '\x7b')

/-- Model of Python `s.rfind("}")`: index of the last closing brace. -/
def last_brace (s : Str) : Option Nat :=
  (s.reverse.findIdx? (fun c => c == '\x7d')).map (fun i => s.length - 1 - i)

/-- `_extract_json(s)` of `llm.py`: strip, drop a leading code fence, locate
the region from the first `{` to the last `}`, and parse it as JSON;
`none` models Python's `None` return. -/
def extract_json (s : Str) : Option Json :=
  match first_brace (fence_extract (pyStrip s)), last_brace (fence_extract (pyStrip s)) with
  | some st, some en =>
    if en ≤ st then none
    else parseJson (((fence_extract (pyStrip s)).drop st).take (en + 1 - st))
  | _, _ => none

/-- The structured-output recovery performed by `run_llm` in json mode on the
raw model response: strip it, and return either the canonical
re-serialization of the extracted JSON or the stripped text itself. -/
def structured_recover (resp : Str) : Str :=
  match extract_json (pyStrip resp) with
  | some parsed => dumps parsed
  | none => pyStrip resp

/-- Python exceptions that the embedded endpoints can raise. -/
inductive PyErr where
  | keyError
  | nameError
  | genError
deriving DecidableEq

/-- `run_llm(prompt_key, syllabus_text)` of `llm.py`.  The external model
(`client.models.generate_content`, an opaque prompt-to-response function
that can raise) is the parameter `model`; a `None` response text is modelled
as the empty string.  Returns the result string together with the number of
model calls performed. -/
def run_llm (model : Str → Except Unit Str) (prompt_key syllabus_text : Str) :
    Except PyErr (Str × Nat) :=
  match PROMPT_SPECS.lookup prompt_key with
  | none => Except.error PyErr.keyError
  | some spec =>
    if pyStrip syllabus_text = [] then Except.ok (no_text_msg, 0)
    else
      match spec.mode with
      | Mode.text =>
        match model (wrap_text spec.prompt syllabus_text) with
        | Except.error _ => Except.error PyErr.genError
        | Except.ok resp => Except.ok (pyStrip resp, 1)
      | Mode.json =>
        let schema_json := dumps spec.schema
        match model (wrap_json spec.prompt schema_json syllabus_text) with
        | Except.error _ => Except.error PyErr.genError
        | Except.ok resp => Except.ok (structured_recover resp, 1)

/-! ## Embedding of `src/app/main.py` -/

/-- Characters kept verbatim by `_slugify` (the class `[a-z0-9]`). -/
def is_slug_char (c : Char) : Bool := ('a' ≤ c && c ≤ 'z') || ('0' ≤ c && c ≤ '9')

/-- Per-character substitution of `re.sub(r"[^a-z0-9]+", "-", s)`. -/
def dash_sub (c : Char) : Char := if is_slug_char c then c else '-'

/-- Collapse runs of dashes to a single dash; with `dash_sub` this models
`re.sub(r"[^a-z0-9]+", "-", s)` (a maximal run of excluded characters
becomes one dash, since `-` itself is excluded). -/
def collapse_dashes : Str → Str
  | [] => []
  | [c] => [c]
  | c :: d :: rest =>
    if c = '-' && d = '-' then collapse_dashes (d :: rest)
    else c :: collapse_dashes (d :: rest)

/-- Model of Python `s.strip("-")`. -/
def strip_dashes (s : Str) : Str :=
  ((s.dropWhile (fun c => c == '-')).reverse.dropWhile (fun c => c == '-')).reverse

/-- `_slugify(s)` of `main.py`. -/
def slugify (s : Str) : Str :=
  strip_dashes (collapse_dashes ((pyStrip (lowerL s)).map dash_sub))

/-- The candidate slug `f"{base}-{i}"`. -/
def cand (base : Str) (i : Nat) : Str := base ++ '-' :: decStr i

/-- Fueled translation of the `while slug in existing` loop of
`_unique_slug`: the first index `j ≥ i` (within `fuel` attempts) whose
candidate is not in `existing`.  `existing.length + 1` fuel always suffices
(proved below), so this is exactly the loop's behaviour. -/
def unique_slug_idx (base : Str) (existing : List Str) : Nat → Nat → Nat
  | 0, i => i
  | fuel + 1, i =>
    if cand base i ∈ existing then unique_slug_idx base existing fuel (i + 1) else i

/-- `_unique_slug(base, existing)` of `main.py`. -/
def unique_slug (base : Str) (existing : List Str) : Str :=
  if base ∈ existing then
    cand base (unique_slug_idx base existing (existing.length + 1) 2)
  else base

/-- The slug assigned by `POST /upload` for a derived raw base string, given
the slugs already in the index. -/
def assigned_slug (raw : Str) (existing : List Str) : Str :=
  unique_slug (slugify raw) existing

/-- Slug assignment over a sequence of uploads: each upload reads the
current slug set and appends its assigned slug, as `upload_syllabus` does. -/
def assign_all (existing : List Str) : List Str → List Str
  | [] => []
  | raw :: raws =>
    let s := assigned_slug raw existing
    s :: assign_all (s :: existing) raws

/-- One record of the document index (`index.json`); `filename := none`
models a record without a `"filename"` key. -/
structure DocRecord where
  slug : Str
  course_code : Str
  title : Str
  instructor : Str
  quarter : Str
  year : Int
  filename : Option Str
  uploaded_at : Str
deriving DecidableEq

/-- `_find_meta(slug)`: first index record with the given slug. -/
def find_meta (idx : List DocRecord) (slug : Str) : Option DocRecord :=
  idx.find? (fun r => r.slug == slug)

/-- The loop body of `_prune_missing_files`: returns the kept records (in
order) and the `changed` flag.  `storage` is the set of file names present
in the uploads directory. -/
def prune_scan (storage : List Str) : List DocRecord → List DocRecord × Bool
  | [] => ([], false)
  | r :: rs =>
    let res := prune_scan storage rs
    match r.filename with
    | none => (res.1, true)
    | some fn =>
      if fn.isEmpty then (res.1, true)
      else if fn ∈ storage then (r :: res.1, res.2) else (res.1, true)

/-- `_prune_missing_files()` of `main.py`: the new index contents, and
whether the index file was rewritten. -/
def prune_missing_files (storage : List Str) (idx : List DocRecord) :
    List DocRecord × Bool :=
  if (prune_scan storage idx).2 then ((prune_scan storage idx).1, true)
  else (idx, false)

/-- Result of extracting one PDF page: `page.extract_text()` may raise, or
return `None` (modelled `none`) or a string. -/
inductive PageResult where
  | fail
  | ok (t : Option Str)
deriving DecidableEq

/-- Opening a PDF either fails (`PdfReader` raises) or yields a page list. -/
inductive PdfOutcome where
  | openFail
  | pages (ps : List PageResult)
deriving DecidableEq

/-- The page loop of `_extract_pdf_text`: accumulate non-empty page texts
(`acc`, reversed) and their total length, breaking once the total reaches
`maxChars`; a raising page propagates the exception. -/
def extract_loop (maxChars : Nat) : List PageResult → Nat → List Str → Except Unit (List Str)
  | [], _, acc => Except.ok acc.reverse
  | PageResult.fail :: _, _, _ => Except.error ()
  | PageResult.ok t? :: rest, total, acc =>
    if (t?.getD []).isEmpty then
      if maxChars ≤ total then Except.ok acc.reverse
      else extract_loop maxChars rest total acc
    else
      if maxChars ≤ total + (t?.getD []).length then
        Except.ok ((t?.getD []) :: acc).reverse
      else extract_loop maxChars rest (total + (t?.getD []).length) ((t?.getD []) :: acc)

/-- The `try` body of `_extract_pdf_text`: join the collected parts with a
blank line and truncate to `maxChars` characters. -/
def extract_try (pdf : PdfOutcome) (maxChars : Nat) : Except Unit Str :=
  match pdf with
  | PdfOutcome.openFail => Except.error ()
  | PdfOutcome.pages ps =>
    match extract_loop maxChars ps 0 [] with
    | Except.error e => Except.error e
    | Except.ok parts => Except.ok ((joinSep ("\n\n".data) parts).take maxChars)

/-- `_extract_pdf_text(pdf_path, max_chars)` of `main.py` (default
`max_chars = 45000`): any exception is swallowed and yields the empty
string. -/
def extract_pdf_text (pdf : PdfOutcome) (maxChars : Nat) : Str :=
  match extract_try pdf maxChars with
  | Except.error _ => []
  | Except.ok s => s

/-- The per-page texts (`page.extract_text() or ""`) of a failure-free page
list. -/
def page_texts (pages : List (Option Str)) : List Str :=
  pages.map (fun t => t.getD [])

/-- The non-empty parts among a list of page texts. -/
def kept_parts (ts : List Str) : List Str := ts.filter (fun t => !t.isEmpty)

/-- Total length of the non-empty parts among the first `k` page texts. -/
def acc_len (ts : List Str) (k : Nat) : Nat :=
  ((kept_parts (ts.take k)).map List.length).sum

/-- Number of pages the extraction loop consumes before stopping (on a
failure-free page list). -/
def stop_count (maxChars : Nat) : List (Option Str) → Nat → Nat
  | [], _ => 0
  | t? :: rest, total =>
    if (t?.getD []).isEmpty then
      if maxChars ≤ total then 1 else 1 + stop_count maxChars rest total
    else
      if maxChars ≤ total + (t?.getD []).length then 1
      else 1 + stop_count maxChars rest (total + (t?.getD []).length)

/-- The cache directory: file name to file contents, one file per entry. -/
abbrev Cache := List (Str × Str)

/-- Characters kept verbatim by the `re.sub(r"[^a-zA-Z0-9_-]+", "_", ...)`
sanitization of `_cache_file`. -/
def is_safe_char (c : Char) : Bool :=
  ('a' ≤ c && c ≤ 'z') || ('A' ≤ c && c ≤ 'Z') || ('0' ≤ c && c ≤ '9')
    || c = '_' || c = '-'

/-- Scan for `re.sub(r"[^a-zA-Z0-9_-]+", "_", key)`: a maximal run of
excluded characters becomes one underscore (`prevBad` records whether the
previous character was part of such a run). -/
def safe_aux : Str → Bool → Str
  | [], _ => []
  | c :: cs, prevBad =>
    if is_safe_char c then c :: safe_aux cs false
    else if prevBad then safe_aux cs true
    else '_' :: safe_aux cs true

/-- The sanitized prompt key used in cache file names. -/
def safe_key (k : Str) : Str := safe_aux k false

/-- `_cache_file(slug, prompt_key)` of `main.py`: the cache file name
`f"{slug}__{safe}.txt"`. -/
def cache_file (slug prompt_key : Str) : Str :=
  slug ++ "__".data ++ safe_key prompt_key ++ ".txt".data

/-- Writing a cache file: overwrite the entry with this name, or create it. -/
def cache_write : Cache → Str → Str → Cache
  | [], name, content => [(name, content)]
  | e :: rest, name, content =>
    if e.1 = name then (name, content) :: rest else e :: cache_write rest name content

/-- Reading a cache file if it exists. -/
def cache_read (cache : Cache) (name : Str) : Option Str := cache.lookup name

/-- Whether a file name matches the glob `f"{slug}__*.txt"` used by the
`/cache/clear/{slug}` route (`*` matches any, possibly empty, sequence). -/
def match_glob (slug name : Str) : Bool :=
  (slug ++ "__".data).isPrefixOf name && (".txt".data).isSuffixOf name
    && decide (slug.length + 6 ≤ name.length)

/-- `clear_cache(slug)` of `main.py`: unlink every cache file matching
`f"{slug}__*.txt"`. -/
def clear_cache (cache : Cache) (slug : Str) : Cache :=
  cache.filter (fun e => !match_glob slug e.1)

/-- Form fields and file of a `POST /upload` request; `now` models
`datetime.utcnow().isoformat()`. -/
structure UploadInput where
  course_code : Str
  title : Str
  instructor : Str
  quarter : Str
  year : Int
  pdf_filename : Str
  now : Str
deriving DecidableEq

/-- Response of `POST /upload`: a redirect to the new document page, or an
`HTTPException` client error. -/
inductive UploadResult where
  | redirect (slug : Str)
  | clientError (code : Nat)
deriving DecidableEq

/-- Persistent state touched by the routes: the index records, the uploads
directory (as stored file names), and the cache directory. -/
structure AppState where
  index : List DocRecord
  storage : List Str
  cache : Cache
deriving DecidableEq

/-- `upload_syllabus` of `main.py` (the background precompute task it
schedules is modelled separately by `precompute_insights`).  Returns the
response and the resulting state. -/
def upload_syllabus (st : AppState) (inp : UploadInput) : UploadResult × AppState :=
  if !(".pdf".data.isSuffixOf (lowerL inp.pdf_filename)) then
    (UploadResult.clientError 400, st)
  else
    let existing := st.index.map (fun r => r.slug)
    let base_slug := slugify (inp.course_code ++ '-' :: inp.instructor
      ++ '-' :: inp.quarter ++ '-' :: intStr inp.year)
    let slug := unique_slug base_slug existing
    let filename := slug ++ ".pdf".data
    let record : DocRecord :=
      { slug := slug, course_code := inp.course_code, title := inp.title,
        instructor := inp.instructor, quarter := inp.quarter, year := inp.year,
        filename := some filename, uploaded_at := inp.now }
    (UploadResult.redirect slug,
      { st with index := st.index ++ [record], storage := st.storage ++ [filename] })

/-- The message `_precompute_insights` writes for every key when extraction
yields no text. -/
def no_text_msg_main : Str :=
  "No text could be extracted from this PDF (scanned image?).".data

/-- The result-collection loop of `_precompute_insights`: for each future in
completion order, take its result (re-raising its exception) and write the
cache file.  An exception aborts the loop, losing all later writes. -/
def precompute_loop (model : Str → Except Unit Str) (slug text : Str)
    (cache : Cache) : List Str → Except PyErr Unit × Cache
  | [] => (Except.ok (), cache)
  | k :: rest =>
    match run_llm model k text with
    | Except.error e => (Except.error e, cache)
    | Except.ok (out, _) =>
      precompute_loop model slug text (cache_write cache (cache_file slug k) out) rest

/-- `_precompute_insights(slug, filename)` of `main.py`.  `order` is the
completion order in which `as_completed` yields the submitted futures (some
permutation of `prompt_keys`); each task's generation result is determined
by `model` and the shared extracted text. -/
def precompute_insights (model : Str → Except Unit Str) (slug : Str)
    (pdf : PdfOutcome) (order : List Str) (cache : Cache) :
    Except PyErr Unit × Cache :=
  let text := extract_pdf_text pdf 45000
  if pyStrip text = [] then
    (Except.ok (),
      prompt_keys.foldl (fun c k => cache_write c (cache_file slug k) no_text_msg_main) cache)
  else precompute_loop model slug text cache order

/-- The `load_cached` helper of the `/compare` route. -/
def load_cached (cache : Cache) (slug key : Str) : Str :=
  (cache_read cache (cache_file slug key)).getD ("(not generated)".data)

/-- The `a_text` / `b_text` blocks composed by the `/compare` route from the
cached tldr, workload and grading entries of one document. -/
def compare_texts (cache : Cache) (slug : Str) : Str :=
  "\nTLDR:\n".data ++ load_cached cache slug ("tldr".data)
    ++ "\n\nWORKLOAD:\n".data ++ load_cached cache slug ("workload".data)
    ++ "\n\nGRADING:\n".data ++ load_cached cache slug ("grading".data)
    ++ "\n".data

/-- The comparison prompt composed by the `/compare` route. -/
def compare_prompt (a b : DocRecord) (a_text b_text : Str) : Str :=
  "\nCompare these two classes for a student choosing one.\n\nDiscuss:\n- workload intensity\n- grading style\n- who should take each\n\nEnd with a clear recommendation.\nFormat your response using markdown.\nUse clear section headers and bullet points.\nPrefer concise comparisons over long paragraphs.\n\nClass A (".data
    ++ a.course_code ++ "):\n".data ++ a_text
    ++ "\n\nClass B (".data ++ b.course_code ++ "):\n".data ++ b_text ++ "\n".data

/-- `GET /compare/{slug_a}/{slug_b}` of `main.py`.  `md_render` models the
`markdown.markdown` library call.  When both slugs resolve, the route reads
the cached entries, composes the prompt and calls `run_llm("compare", ...)`;
the missing-slug branch of the source references the undefined variable
`result` and raises `NameError`.  Returns the rendered page and the number
of model calls made. -/
def compare_route (st : AppState) (model : Str → Except Unit Str)
    (md_render : Str → Str) (slug_a slug_b : Str) : Except PyErr (Str × Nat) :=
  match find_meta st.index slug_a, find_meta st.index slug_b with
  | some a, some b =>
    let a_text := compare_texts st.cache slug_a
    let b_text := compare_texts st.cache slug_b
    let prompt := compare_prompt a b a_text b_text
    match run_llm model ("compare".data) prompt with
    | Except.error e => Except.error e
    | Except.ok (result, n) => Except.ok (md_render result, n)
  | _, _ => Except.error PyErr.nameError

/-- Claim-side predicate (spec wording): the record's backing PDF file is
present in storage. -/
def backing_present (storage : List Str) (r : DocRecord) : Bool :=
  match r.filename with
  | none => false
  | some fn => decide (fn ∈ storage)

/-- Demonstration syllabus text for the precompute failure analysis. -/
def demo_text : Str := "Course content.".data

/-- Demonstration PDF whose extraction yields `demo_text`. -/
def demo_pdf : PdfOutcome := PdfOutcome.pages [PageResult.ok (some demo_text)]

/-- Demonstration model: the generation call for the `tldr` prompt raises,
every other call succeeds with the response `"ok"`. -/
def demo_model : Str → Except Unit Str :=
  fun p =>
    if p = wrap_text ("Summarize this syllabus in 6 concise bullet points.".data) demo_text
    then Except.error ()
    else Except.ok ("ok".data)

/-- A completion order for the precompute futures in which the failing
`tldr` task completes first. -/
def demo_order : List Str :=
  ["tldr".data, "workload".data, "grading".data, "prereqs".data]

/-- A demonstration index record with a given slug. -/
def demo_record (slug : Str) : DocRecord :=
  { slug := slug, course_code := "CS 101".data, title := [], instructor := [],
    quarter := [], year := 0, filename := some (slug ++ ".pdf".data),
    uploaded_at := [] }

/-- Demonstration application state with two indexed documents. -/
def demo_state : AppState :=
  { index := [demo_record ("a".data), demo_record ("b".data)],
    storage := ["a.pdf".data, "b.pdf".data],
    cache := [] }

/-! ## Claim theorems -/

/-- C3: for every request-type key of the catalog and every source text that
is empty or whitespace-only, `run_llm` returns the fixed fallback message
and performs no call to the external model (regardless of the model). -/
theorem C3_empty_text_no_model_call (model : Str → Except Unit Str)
    (key text : Str) (hkey : (PROMPT_SPECS.lookup key).isSome = true)
    (htext : pyStrip text = []) :
    run_llm model key text = Except.ok (no_text_msg, 0) := by
  unfold run_llm
  match h : PROMPT_SPECS.lookup key with
  | none => rw [h] at hkey; simp at hkey
  | some spec => simp [htext]

/-- Witness for C3 at the key `tldr` and a whitespace-only text. -/
theorem C3_witness :
    (PROMPT_SPECS.lookup ("tldr".data)).isSome = true
      ∧ pyStrip ("  \n".data) = []
      ∧ run_llm (fun _ => Except.ok []) ("tldr".data) ("  \n".data)
          = Except.ok (no_text_msg, 0) :=
  ⟨by decide, by decide,
    C3_empty_text_no_model_call (fun _ => Except.ok []) ("tldr".data) ("  \n".data)
      (by decide) (by decide)⟩

/-- C6: an upload whose file name does not end in `.pdf` (case-folded) is
rejected with a 400 client error and the state (index, stored files, cache)
is unchanged. -/
theorem C6_non_pdf_rejected (st : AppState) (inp : UploadInput)
    (h : (".pdf".data).isSuffixOf (lowerL inp.pdf_filename) = false) :
    upload_syllabus st inp = (UploadResult.clientError 400, st) := by
  unfold upload_syllabus
  simp [h]

/-- Witness for C6: a `.txt` upload against the demonstration state. -/
theorem C6_witness :
    (".pdf".data).isSuffixOf (lowerL ("notes.TXT".data)) = false
      ∧ upload_syllabus demo_state
          { course_code := "CS 101".data, title := [], instructor := [],
            quarter := [], year := 0, pdf_filename := "notes.TXT".data, now := [] }
          = (UploadResult.clientError 400, demo_state) :=
  ⟨by decide,
    C6_non_pdf_rejected demo_state
      { course_code := "CS 101".data, title := [], instructor := [],
        quarter := [], year := 0, pdf_filename := "notes.TXT".data, now := [] }
      (by decide)⟩

/-- C2 (counterevidence): with both slugs present in the index, the
`/compare` route raises `KeyError` from `run_llm("compare", ...)` — the
catalog has no `compare` entry — before any model call, instead of
generating once and returning rendered markup. -/
theorem C2_compare_key_missing :
    compare_route demo_state (fun _ => Except.ok ("response".data)) (fun s => s)
        ("a".data) ("b".data) = Except.error PyErr.keyError := rfl

/-- C4 (counterevidence): in a precompute batch where the `tldr` generation
raises and completes first, the batch aborts with the exception and the
`workload` entry is never cached, even though its generation succeeds. -/
theorem C4_precompute_not_isolated :
    precompute_insights demo_model ("doc".data) demo_pdf demo_order []
        = (Except.error PyErr.genError, [])
    ∧ run_llm demo_model ("workload".data) demo_text = Except.ok ("ok".data, 1)
    ∧ cache_read [] (cache_file ("doc".data) ("workload".data)) = none :=
  ⟨rfl, rfl, rfl⟩

/-- C8: PDF text extraction never raises: whenever the underlying `try` body
raises (corrupt file, failing page, etc.) the result is the empty string,
and an unreadable file, an empty file, or a file whose first page raises all
yield the empty string. -/
theorem C8_extraction_never_raises (pdf : PdfOutcome) (maxChars : Nat) :
    (∀ e, extract_try pdf maxChars = Except.error e →
      extract_pdf_text pdf maxChars = [])
    ∧ extract_pdf_text PdfOutcome.openFail maxChars = []
    ∧ extract_pdf_text (PdfOutcome.pages []) maxChars = []
    ∧ ∀ ps, extract_pdf_text (PdfOutcome.pages (PageResult.fail :: ps)) maxChars = [] := by
  refine ⟨?_, rfl, ?_, ?_⟩
  · intro e he
    unfold extract_pdf_text
    rw [he]
  · show (match extract_try (PdfOutcome.pages []) maxChars with
      | Except.error _ => [] | Except.ok s => s) = []
    simp [extract_try, extract_loop, joinSep, List.take_nil]
  · intro ps
    rfl

/-- Witness for C8 at a corrupt single-page PDF. -/
theorem C8_witness :
    extract_try (PdfOutcome.pages [PageResult.fail]) 10 = Except.error ()
      ∧ extract_pdf_text (PdfOutcome.pages [PageResult.fail]) 10 = [] :=
  ⟨rfl, (C8_extraction_never_raises (PdfOutcome.pages [PageResult.fail]) 10).1 () rfl⟩

/-- C1: structured-output recovery.  The model response is stripped; if it
begins with a code-fence marker (and a closing fence exists), the first
fenced block's stripped contents are taken; the region from the first `{`
to the last `}` is located; if either brace is absent, or the last `}` is
at or before the first `{`, or the region fails to parse as JSON, the raw
trimmed response is returned unchanged; on parse success the parsed value's
canonical pretty-printed re-serialization is returned.  In particular the
fenced example from the spec yields the re-serialization of `{"a": 1}`. -/
theorem C1_structured_output_recovery (s out s2 : Str)
    (hout : out = pyStrip s) (hs2 : s2 = fence_extract (pyStrip out)) :
    ((pyStrip out).take 3 = fence3 →
        3 ≤ (split_fence (pyStrip out) []).length →
        s2 = pyStrip ((split_fence (pyStrip out) []).getD 1 []))
    ∧ (first_brace s2 = none → structured_recover s = out)
    ∧ (last_brace s2 = none → structured_recover s = out)
    ∧ (∀ st en, first_brace s2 = some st → last_brace s2 = some en → en ≤ st →
        structured_recover s = out)
    ∧ (∀ st en, first_brace s2 = some st → last_brace s2 = some en → st < en →
        parseJson ((s2.drop st).take (en + 1 - st)) = none →
        structured_recover s = out)
    ∧ (∀ st en j, first_brace s2 = some st → last_brace s2 = some en → st < en →
        parseJson ((s2.drop st).take (en + 1 - st)) = some j →
        structured_recover s = dumps j)
    ∧ structured_recover ("prefix ```json\n\x7b\"a\":1\x7d\n``` suffix".data)
        = "\x7b\n  \"a\": 1\n\x7d".data := by
  subst hout
  subst hs2
  refine ⟨?_, ?_, ?_, ?_, ?_, ?_, rfl⟩
  · intro h1 h2
    simp [fence_extract, h1, h2]
  · intro h
    unfold structured_recover extract_json
    rw [h]
  · intro h
    unfold structured_recover extract_json
    rw [h]
    cases first_brace (fence_extract (pyStrip (pyStrip s))) <;> rfl
  · intro st en hfb hlb hle
    unfold structured_recover extract_json
    rw [hfb, hlb]
    simp [hle]
  · intro st en hfb hlb hlt hparse
    unfold structured_recover extract_json
    rw [hfb, hlb]
    simp [Nat.not_le.mpr hlt, hparse]
  · intro st en j hfb hlb hlt hparse
    unfold structured_recover extract_json
    rw [hfb, hlb]
    simp [Nat.not_le.mpr hlt, hparse]

/-- Witness for C1: a concrete response whose brace region parses, recovered
to the canonical serialization of the parsed object. -/
theorem C1_witness :
    first_brace (fence_extract (pyStrip (pyStrip ("x \x7b\"k\":true\x7d y".data)))) = some 2
    ∧ last_brace (fence_extract (pyStrip (pyStrip ("x \x7b\"k\":true\x7d y".data)))) = some 11
    ∧ structured_recover ("x \x7b\"k\":true\x7d y".data)
        = dumps (Json.obj [("k".data, Json.bool true)]) :=
  ⟨rfl, rfl,
    ((C1_structured_output_recovery ("x \x7b\"k\":true\x7d y".data) _ _ rfl rfl).2.2.2.2.2.1)
      2 11 (Json.obj [("k".data, Json.bool true)]) rfl rfl (by decide) rfl⟩

/-- The kept records of the prune scan are exactly those whose backing file
is present (no stored file has an empty name). -/
theorem prune_scan_fst (storage : List Str) (hempty : ([] : Str) ∉ storage) :
    ∀ idx : List DocRecord,
      (prune_scan storage idx).1 = idx.filter (backing_present storage) := by
  intro idx
  induction idx with
  | nil => rfl
  | cons r rs ih =>
    cases hf : r.filename with
    | none => simp [prune_scan, backing_present, hf, List.filter_cons, ih]
    | some fn =>
      cases fn with
      | nil =>
        simp [prune_scan, backing_present, hf, List.filter_cons, ih, hempty]
      | cons c cs =>
        by_cases hm : (c :: cs) ∈ storage
        · simp [prune_scan, backing_present, hf, List.filter_cons, ih, hm]
        · simp [prune_scan, backing_present, hf, List.filter_cons, ih, hm]

/-- The `changed` flag of the prune scan is set exactly when some record's
backing file is absent. -/
theorem prune_scan_snd (storage : List Str) (hempty : ([] : Str) ∉ storage) :
    ∀ idx : List DocRecord,
      (prune_scan storage idx).2 = !(idx.all (backing_present storage)) := by
  intro idx
  induction idx with
  | nil => rfl
  | cons r rs ih =>
    cases hf : r.filename with
    | none => simp [prune_scan, backing_present, hf]
    | some fn =>
      cases fn with
      | nil => simp [prune_scan, backing_present, hf, hempty]
      | cons c cs =>
        by_cases hm : (c :: cs) ∈ storage
        · simp [prune_scan, backing_present, hf, hm, ih]
        · simp [prune_scan, backing_present, hf, hm]

/-- C10: pruning removes exactly the records whose backing PDF file is
absent from storage (provided no stored file has an empty name), and when
every record's backing file is present it performs no rewrite of the
persisted index. -/
theorem C10_prune_missing (storage : List Str) (idx : List DocRecord)
    (hempty : ([] : Str) ∉ storage) :
    (prune_missing_files storage idx).1 = idx.filter (backing_present storage)
    ∧ ((∀ r ∈ idx, backing_present storage r = true) →
        prune_missing_files storage idx = (idx, false)) := by
  constructor
  · unfold prune_missing_files
    by_cases h : (prune_scan storage idx).2
    · simp [h, prune_scan_fst storage hempty idx]
    · simp [h]
      rw [prune_scan_snd storage hempty idx] at h
      simp at h
      exact (List.filter_eq_self.mpr h).symm
  · intro hall
    unfold prune_missing_files
    have h2 : (prune_scan storage idx).2 = false := by
      rw [prune_scan_snd storage hempty idx]
      simp [List.all_eq_true]
      exact fun r hr => hall r hr
    simp [h2]

/-- Witness for C10: one backing file missing is pruned; an index whose
backing files all exist is returned unchanged with no rewrite. -/
theorem C10_witness :
    ([] : Str) ∉ ["a.pdf".data]
    ∧ (prune_missing_files ["a.pdf".data]
        [demo_record ("a".data), demo_record ("b".data)]).1 = [demo_record ("a".data)]
    ∧ prune_missing_files ["a.pdf".data] [demo_record ("a".data)]
        = ([demo_record ("a".data)], false) :=
  ⟨by decide,
    (C10_prune_missing ["a.pdf".data]
      [demo_record ("a".data), demo_record ("b".data)] (by decide)).1.trans (by decide),
    (C10_prune_missing ["a.pdf".data] [demo_record ("a".data)] (by decide)).2
      (by decide)⟩

/-- Unfolding of `acc_len` over the first page text. -/
theorem acc_len_cons (t0 : Str) (ts : List Str) (k : Nat) :
    acc_len (t0 :: ts) (k + 1)
      = (if t0.isEmpty then 0 else t0.length) + acc_len ts k := by
  by_cases h : t0.isEmpty
  · simp [acc_len, kept_parts, List.take_succ_cons, List.filter_cons, h]
  · simp [acc_len, kept_parts, List.take_succ_cons, List.filter_cons, h]

/-- Behaviour of the extraction loop on a failure-free page list, for any
starting total and accumulator: it returns the accumulated parts followed by
the non-empty texts of the pages consumed, where the number of consumed
pages is `stop_count`; the loop runs past page `k ≥ 1` only while the
accumulated length is still below `maxChars`, and stops early only once it
has reached `maxChars`. -/
theorem extract_loop_spec (m : Nat) :
    ∀ (pages : List (Option Str)) (t : Nat) (a : List Str),
      extract_loop m (pages.map PageResult.ok) t a
        = Except.ok (a.reverse
            ++ kept_parts (page_texts (pages.take (stop_count m pages t))))
      ∧ stop_count m pages t ≤ pages.length
      ∧ (∀ k, 1 ≤ k → k < stop_count m pages t →
          t + acc_len (page_texts pages) k < m)
      ∧ (stop_count m pages t < pages.length →
          m ≤ t + acc_len (page_texts pages) (stop_count m pages t)) := by
  intro pages
  induction pages with
  | nil =>
    intro t a
    refine ⟨?_, ?_, ?_, ?_⟩ <;>
      simp [extract_loop, stop_count, kept_parts, page_texts, acc_len]
  | cons p rest ih =>
    intro t a
    by_cases hE : (p.getD []).isEmpty
    · by_cases hm : m ≤ t
      · have hsc : stop_count m (p :: rest) t = 1 := by simp [stop_count, hE, hm]
        refine ⟨?_, ?_, ?_, ?_⟩
        · rw [hsc]
          simp [extract_loop, hE, hm, page_texts, kept_parts, List.filter_cons,
            List.take_succ_cons]
        · rw [hsc]; simp
        · intro k hk1 hk2
          rw [hsc] at hk2
          omega
        · intro _
          rw [hsc]
          have : acc_len (page_texts (p :: rest)) 1
              = (if (p.getD []).isEmpty then 0 else (p.getD []).length)
                + acc_len (page_texts rest) 0 := by
            simp only [page_texts, List.map]
            exact acc_len_cons (p.getD []) (rest.map (fun x => x.getD [])) 0
          rw [this]
          simp [hE, acc_len, kept_parts]
          omega
      · have hsc : stop_count m (p :: rest) t = 1 + stop_count m rest t := by
          simp [stop_count, hE, hm]
        obtain ⟨ih1, ih2, ih3, ih4⟩ := ih t a
        refine ⟨?_, ?_, ?_, ?_⟩
        · rw [hsc]
          have hloop : extract_loop m ((p :: rest).map PageResult.ok) t a
              = extract_loop m (rest.map PageResult.ok) t a := by
            simp [extract_loop, hE, hm]
          rw [hloop, ih1]
          have : (p :: rest).take (1 + stop_count m rest t)
              = p :: rest.take (stop_count m rest t) := by
            rw [Nat.add_comm]
            exact List.take_succ_cons
          rw [this]
          simp [page_texts, kept_parts, List.filter_cons, hE]
        · rw [hsc]; simp; omega
        · intro k hk1 hk2
          rw [hsc] at hk2
          match k, hk1 with
          | 1, _ =>
            have : acc_len (page_texts (p :: rest)) 1
                = 0 + acc_len (page_texts rest) 0 := by
              simp only [page_texts, List.map]
              rw [acc_len_cons (p.getD []) (rest.map (fun x => x.getD [])) 0]
              simp [hE]
            rw [this]
            simp [acc_len, kept_parts]
            omega
          | k' + 2, _ =>
            have : acc_len (page_texts (p :: rest)) (k' + 2)
                = 0 + acc_len (page_texts rest) (k' + 1) := by
              simp only [page_texts, List.map]
              rw [acc_len_cons (p.getD []) (rest.map (fun x => x.getD [])) (k' + 1)]
              simp [hE]
            rw [this]
            have := ih3 (k' + 1) (by omega) (by omega)
            omega
        · intro hlt
          rw [hsc] at hlt ⊢
          have hlt' : stop_count m rest t < rest.length := by
            simp [List.length_cons] at hlt
            omega
          have := ih4 hlt'
          have : acc_len (page_texts (p :: rest)) (1 + stop_count m rest t)
              = 0 + acc_len (page_texts rest) (stop_count m rest t) := by
            simp only [page_texts, List.map]
            rw [Nat.add_comm 1 (stop_count m rest t)]
            rw [acc_len_cons (p.getD []) (rest.map (fun x => x.getD []))
              (stop_count m rest t)]
            simp [hE]
          rw [this]
          have := ih4 hlt'
          omega
    · by_cases hm : m ≤ t + (p.getD []).length
      · have hsc : stop_count m (p :: rest) t = 1 := by simp [stop_count, hE, hm]
        refine ⟨?_, ?_, ?_, ?_⟩
        · rw [hsc]
          simp [extract_loop, hE, hm, page_texts, kept_parts, List.filter_cons,
            List.take_succ_cons]
        · rw [hsc]; simp
        · intro k hk1 hk2
          rw [hsc] at hk2
          omega
        · intro _
          rw [hsc]
          have : acc_len (page_texts (p :: rest)) 1
              = (p.getD []).length + acc_len (page_texts rest) 0 := by
            simp only [page_texts, List.map]
            rw [acc_len_cons (p.getD []) (rest.map (fun x => x.getD [])) 0]
            simp [hE]
          rw [this]
          simp [acc_len, kept_parts]
          omega
      · have hsc : stop_count m (p :: rest) t
            = 1 + stop_count m rest (t + (p.getD []).length) := by
          simp [stop_count, hE, hm]
        obtain ⟨ih1, ih2, ih3, ih4⟩ := ih (t + (p.getD []).length) ((p.getD []) :: a)
        refine ⟨?_, ?_, ?_, ?_⟩
        · rw [hsc]
          have hloop : extract_loop m ((p :: rest).map PageResult.ok) t a
              = extract_loop m (rest.map PageResult.ok) (t + (p.getD []).length)
                  ((p.getD []) :: a) := by
            simp [extract_loop, hE, hm]
          rw [hloop, ih1]
          have : (p :: rest).take (1 + stop_count m rest (t + (p.getD []).length))
              = p :: rest.take (stop_count m rest (t + (p.getD []).length)) := by
            rw [Nat.add_comm]
            exact List.take_succ_cons
          rw [this]
          simp [page_texts, kept_parts, List.filter_cons, hE]
        · rw [hsc]; simp; omega
        · intro k hk1 hk2
          rw [hsc] at hk2
          match k, hk1 with
          | 1, _ =>
            have : acc_len (page_texts (p :: rest)) 1
                = (p.getD []).length + acc_len (page_texts rest) 0 := by
              simp only [page_texts, List.map]
              rw [acc_len_cons (p.getD []) (rest.map (fun x => x.getD [])) 0]
              simp [hE]
            rw [this]
            simp [acc_len, kept_parts]
            omega
          | k' + 2, _ =>
            have : acc_len (page_texts (p :: rest)) (k' + 2)
                = (p.getD []).length + acc_len (page_texts rest) (k' + 1) := by
              simp only [page_texts, List.map]
              rw [acc_len_cons (p.getD []) (rest.map (fun x => x.getD [])) (k' + 1)]
              simp [hE]
            rw [this]
            have := ih3 (k' + 1) (by omega) (by omega)
            omega
        · intro hlt
          rw [hsc] at hlt ⊢
          have hlt' : stop_count m rest (t + (p.getD []).length) < rest.length := by
            simp [List.length_cons] at hlt
            omega
          have h4 := ih4 hlt'
          have : acc_len (page_texts (p :: rest))
                (1 + stop_count m rest (t + (p.getD []).length))
              = (p.getD []).length
                + acc_len (page_texts rest) (stop_count m rest (t + (p.getD []).length)) := by
            simp only [page_texts, List.map]
            rw [Nat.add_comm 1 _]
            rw [acc_len_cons (p.getD []) (rest.map (fun x => x.getD [])) _]
            simp [hE]
          rw [this]
          omega

/-- Joining with a separator never produces fewer characters than the sum of
the part lengths. -/
theorem joinSep_length_ge (sep : Str) : ∀ parts : List Str,
    (parts.map List.length).sum ≤ (joinSep sep parts).length := by
  intro parts
  induction parts with
  | nil => simp [joinSep]
  | cons x xs ih =>
    cases xs with
    | nil => simp [joinSep]
    | cons y ys =>
      simp only [joinSep, List.map, List.sum_cons, List.length_append] at *
      omega

/-- C9: extraction reads pages sequentially, keeps the non-empty page texts
of the first `stop_count` pages joined with the blank-line separator and
truncated to `max_chars`; it continues past page `k ≥ 1` only while the
accumulated kept length is below `max_chars` and stops early only once it
reaches `max_chars`; the result never exceeds `max_chars` characters and
has exactly `max_chars` characters whenever the accumulated kept length
reached it. -/
theorem C9_extract_contract (pages : List (Option Str)) (m : Nat) :
    stop_count m pages 0 ≤ pages.length
    ∧ extract_pdf_text (PdfOutcome.pages (pages.map PageResult.ok)) m
        = (joinSep ("\n\n".data)
            (kept_parts (page_texts (pages.take (stop_count m pages 0))))).take m
    ∧ (∀ k, 1 ≤ k → k < stop_count m pages 0 →
        acc_len (page_texts pages) k < m)
    ∧ (stop_count m pages 0 < pages.length →
        m ≤ acc_len (page_texts pages) (stop_count m pages 0))
    ∧ (extract_pdf_text (PdfOutcome.pages (pages.map PageResult.ok)) m).length ≤ m
    ∧ (m ≤ acc_len (page_texts pages) (stop_count m pages 0) →
        (extract_pdf_text (PdfOutcome.pages (pages.map PageResult.ok)) m).length = m) := by
  obtain ⟨h1, h2, h3, h4⟩ := extract_loop_spec m pages 0 []
  have hext : extract_pdf_text (PdfOutcome.pages (pages.map PageResult.ok)) m
      = (joinSep ("\n\n".data)
          (kept_parts (page_texts (pages.take (stop_count m pages 0))))).take m := by
    simp only [extract_pdf_text, extract_try]
    rw [h1]
    simp
  have hmt : page_texts (pages.take (stop_count m pages 0))
      = (page_texts pages).take (stop_count m pages 0) := by
    simp [page_texts, List.map_take]
  refine ⟨h2, hext, ?_, ?_, ?_, ?_⟩
  · intro k hk1 hk2
    have := h3 k hk1 hk2
    omega
  · intro h
    have := h4 h
    omega
  · rw [hext, List.length_take]
    exact Nat.min_le_left _ _
  · intro hm
    rw [hext]
    have hsum : acc_len (page_texts pages) (stop_count m pages 0)
        = ((kept_parts (page_texts (pages.take (stop_count m pages 0)))).map
            List.length).sum := by
      rw [hmt]
      rfl
    have hle : m ≤ (joinSep ("\n\n".data)
        (kept_parts (page_texts (pages.take (stop_count m pages 0))))).length := by
      refine le_trans ?_ (joinSep_length_ge _ _)
      rw [← hsum]
      exact hm
    rw [List.length_take]
    exact Nat.min_eq_left hle

/-- Witness for C9 on a five-page PDF truncated at six characters. -/
theorem C9_witness :
    stop_count 6 [some ("abcd".data), none, some [], some ("efgh".data),
        some ("ij".data)] 0 = 4
    ∧ extract_pdf_text (PdfOutcome.pages ([some ("abcd".data), none, some [],
        some ("efgh".data), some ("ij".data)].map PageResult.ok)) 6
        = "abcd\n\n".data
    ∧ acc_len (page_texts [some ("abcd".data), none, some [],
        some ("efgh".data), some ("ij".data)]) 1 < 6
    ∧ (extract_pdf_text (PdfOutcome.pages ([some ("abcd".data), none, some [],
        some ("efgh".data), some ("ij".data)].map PageResult.ok)) 6).length = 6 :=
  ⟨by decide, by decide,
    (C9_extract_contract [some ("abcd".data), none, some [], some ("efgh".data),
        some ("ij".data)] 6).2.2.1 1 (by decide) (by decide),
    (C9_extract_contract [some ("abcd".data), none, some [], some ("efgh".data),
        some ("ij".data)] 6).2.2.2.2.2 (by decide)⟩

/-- Decimal digit characters are never an underscore. -/
theorem decChar_ne_underscore (d : Nat) : decChar d ≠ '_' := by
  unfold decChar
  split <;> decide

/-- Characters of the decimal digit expansion are never an underscore. -/
theorem mem_decDigits_ne_underscore :
    ∀ (f n : Nat) (c : Char), c ∈ decDigits f n → c ≠ '_' := by
  intro f
  induction f with
  | zero => intro n c h; simp [decDigits] at h
  | succ f ih =>
    intro n c h
    cases n with
    | zero => simp [decDigits] at h
    | succ k =>
      simp only [decDigits, List.mem_cons] at h
      rcases h with h | h
      · rw [h]; exact decChar_ne_underscore _
      · exact ih _ _ h

/-- The rendering of a natural number contains no underscore. -/
theorem decStr_no_underscore (n : Nat) : '_' ∉ decStr n := by
  unfold decStr
  split
  · decide
  · intro h
    exact mem_decDigits_ne_underscore n n '_' (List.mem_reverse.mp h) rfl

/-- Membership is preserved backwards through dash collapsing. -/
theorem mem_collapse_dashes : ∀ (l : Str) (c : Char), c ∈ collapse_dashes l → c ∈ l := by
  intro l
  induction l with
  | nil => intro c h; simp [collapse_dashes] at h
  | cons a rest ih =>
    intro c h
    cases rest with
    | nil => simpa [collapse_dashes] using h
    | cons b bs =>
      unfold collapse_dashes at h
      split at h
      · exact List.mem_cons_of_mem a (ih c h)
      · rcases List.mem_cons.mp h with rfl | h2
        · exact List.mem_cons_self _ _
        · exact List.mem_cons_of_mem a (ih c h2)

/-- Membership is preserved backwards through dash stripping. -/
theorem mem_strip_dashes {c : Char} {l : Str} (h : c ∈ strip_dashes l) : c ∈ l := by
  unfold strip_dashes at h
  have h1 := List.mem_reverse.mp h
  have h2 := (List.dropWhile_sublist _).subset h1
  have h3 := List.mem_reverse.mp h2
  exact (List.dropWhile_sublist _).subset h3

/-- Every character of a slug is a lowercase alphanumeric or a dash. -/
theorem slugify_chars (s : Str) : ∀ c ∈ slugify s, is_slug_char c = true ∨ c = '-' := by
  intro c hc
  unfold slugify at hc
  have h2 := mem_collapse_dashes _ c (mem_strip_dashes hc)
  obtain ⟨x, _, rfl⟩ := List.mem_map.mp h2
  unfold dash_sub
  by_cases h : is_slug_char x
  · left; simp [h]
  · right; simp [h]

/-- Slugs contain no underscore. -/
theorem slugify_no_underscore (s : Str) : '_' ∉ slugify s := by
  intro h
  rcases slugify_chars s '_' h with h1 | h1
  · simp [is_slug_char] at h1
  · exact absurd h1 (by decide)

/-- A slug assigned by the upload flow contains no underscore. -/
theorem assigned_slug_no_underscore (raw : Str) (ex : List Str) :
    '_' ∉ assigned_slug raw ex := by
  unfold assigned_slug unique_slug
  split
  · intro h
    unfold cand at h
    rcases List.mem_append.mp h with h | h
    · exact slugify_no_underscore raw h
    · rcases List.mem_cons.mp h with h | h
      · exact absurd h (by decide)
      · exact decStr_no_underscore _ h
  · exact slugify_no_underscore raw

/-- Boolean prefix test in terms of an append decomposition. -/
theorem prefixOf_spec (l₁ l₂ : Str) : l₁.isPrefixOf l₂ = true ↔ ∃ t, l₁ ++ t = l₂ := by
  rw [ List.isPrefixOf_iff_prefix]
  exact Iff.rfl

/-- Boolean suffix test in terms of an append decomposition. -/
theorem suffixOf_spec (l₁ l₂ : Str) : l₁.isSuffixOf l₂ = true ↔ ∃ p, p ++ l₁ = l₂ := by
  rw [List.isSuffixOf_iff_suffix]
  exact Iff.rfl

/-- Core disjointness argument for cache globbing: a cache-file name built
from slug `B` cannot start with `A ++ "__"` when `A` and `B` are distinct
underscore-free slugs. -/
theorem underscore_prefix_cross (A B t S : Str) (hA : '_' ∉ A) (hB : '_' ∉ B)
    (hne : A ≠ B)
    (heq : (A ++ "__".data) ++ t = ((B ++ "__".data) ++ S) ++ ".txt".data) :
    False := by
  have hU : ("__".data).length = 2 := rfl
  rcases Nat.lt_trichotomy A.length B.length with hlt | heqL | hgt
  · have hcast := congrArg (fun l : Str => l[A.length]?) heq
    simp only at hcast
    have hlhs : ((A ++ "__".data) ++ t)[A.length]? = some '_' := by
      rw [List.getElem?_append_left (by
        simp only [List.length_append, hU]; omega)]
      rw [List.getElem?_append_right (le_refl _)]
      simp
    have hrhs : (((B ++ "__".data) ++ S) ++ ".txt".data)[A.length]? = B[A.length]? := by
      rw [List.getElem?_append_left (by
        simp only [List.length_append, hU]; omega)]
      rw [List.getElem?_append_left (by
        simp only [List.length_append, hU]; omega)]
      rw [List.getElem?_append_left hlt]
    rw [hlhs, hrhs] at hcast
    exact hB (List.getElem?_mem hcast.symm)
  · simp only [List.append_assoc] at heq
    exact hne (List.append_inj heq heqL).1
  · have hcast := congrArg (fun l : Str => l[B.length]?) heq
    simp only at hcast
    have hlhs : ((A ++ "__".data) ++ t)[B.length]? = A[B.length]? := by
      rw [List.getElem?_append_left (by
        simp only [List.length_append, hU]; omega)]
      rw [List.getElem?_append_left hgt]
    have hrhs : (((B ++ "__".data) ++ S) ++ ".txt".data)[B.length]? = some '_' := by
      rw [List.getElem?_append_left (by
        simp only [List.length_append, hU]; omega)]
      rw [List.getElem?_append_left (by
        simp only [List.length_append, hU]; omega)]
      rw [List.getElem?_append_right (le_refl _)]
      simp
    rw [hlhs, hrhs] at hcast
    exact hA (List.getElem?_mem hcast)

/-- A document's own cache-file names always match its clear glob. -/
theorem match_glob_self (A k : Str) : match_glob A (cache_file A k) = true := by
  unfold match_glob cache_file
  have hp : (A ++ "__".data).isPrefixOf
      (A ++ "__".data ++ safe_key k ++ ".txt".data) = true := by
    rw [prefixOf_spec]
    exact ⟨safe_key k ++ ".txt".data, (List.append_assoc _ _ _).symm⟩
  have hs : (".txt".data).isSuffixOf
      (A ++ "__".data ++ safe_key k ++ ".txt".data) = true := by
    rw [suffixOf_spec]
    exact ⟨A ++ "__".data ++ safe_key k, rfl⟩
  have hl : A.length + 6 ≤ (A ++ "__".data ++ safe_key k ++ ".txt".data).length := by
    have hlen : (A ++ "__".data ++ safe_key k ++ ".txt".data).length
        = A.length + 2 + (safe_key k).length + 4 := by
      simp [List.length_append]
      omega
    omega
  rw [hp, hs]
  simp only [Bool.true_and]
  exact decide_eq_true hl

/-- Another (distinct, underscore-free) document's cache-file names never
match the clear glob. -/
theorem match_glob_other (A B k : Str) (hA : '_' ∉ A) (hB : '_' ∉ B)
    (hne : A ≠ B) : match_glob A (cache_file B k) = false := by
  cases hmg : match_glob A (cache_file B k)
  · rfl
  · exfalso
    unfold match_glob at hmg
    simp only [Bool.and_eq_true] at hmg
    obtain ⟨⟨h1, _⟩, _⟩ := hmg
    obtain ⟨t, ht⟩ := (prefixOf_spec _ _).mp h1
    unfold cache_file at ht
    exact underscore_prefix_cross A B t (safe_key k) hA hB hne (by
      simpa [List.append_assoc] using ht)

/-- C7: for distinct slugs `A`, `B` produced by the slug-assignment
procedure, clearing `A`'s cache removes every entry keyed to `A` (any
request-type key) and leaves every entry keyed to `B` unchanged. -/
theorem C7_cache_clear_frame (rawA rawB : Str) (exA exB : List Str)
    (cache : Cache) (A B : Str)
    (hA : A = assigned_slug rawA exA) (hB : B = assigned_slug rawB exB)
    (hne : A ≠ B) :
    (∀ k content, (cache_file A k, content) ∈ clear_cache cache A → False)
    ∧ (∀ k content,
        ((cache_file B k, content) ∈ clear_cache cache A
          ↔ (cache_file B k, content) ∈ cache)) := by
  have hAu : '_' ∉ A := hA ▸ assigned_slug_no_underscore rawA exA
  have hBu : '_' ∉ B := hB ▸ assigned_slug_no_underscore rawB exB
  constructor
  · intro k content hmem
    unfold clear_cache at hmem
    rw [List.mem_filter] at hmem
    have h2 := hmem.2
    rw [match_glob_self A k] at h2
    simp at h2
  · intro k content
    unfold clear_cache
    rw [List.mem_filter]
    constructor
    · exact fun h => h.1
    · intro h
      refine ⟨h, ?_⟩
      rw [match_glob_other A B k hAu hBu hne]
      rfl

/-- Witness for C7: clearing `cs-101`'s cache removes its `tldr` entry and
keeps `cs102`'s. -/
theorem C7_witness :
    assigned_slug ("cs 101".data) [] ≠ assigned_slug ("cs102!".data) []
    ∧ ((cache_file (assigned_slug ("cs 101".data) []) ("tldr".data), "x".data)
        ∈ clear_cache
            [(cache_file (assigned_slug ("cs 101".data) []) ("tldr".data), "x".data),
             (cache_file (assigned_slug ("cs102!".data) []) ("tldr".data), "y".data)]
            (assigned_slug ("cs 101".data) []) → False)
    ∧ ((cache_file (assigned_slug ("cs102!".data) []) ("tldr".data), "y".data)
        ∈ clear_cache
            [(cache_file (assigned_slug ("cs 101".data) []) ("tldr".data), "x".data),
             (cache_file (assigned_slug ("cs102!".data) []) ("tldr".data), "y".data)]
            (assigned_slug ("cs 101".data) [])
        ↔ (cache_file (assigned_slug ("cs102!".data) []) ("tldr".data), "y".data)
          ∈ [(cache_file (assigned_slug ("cs 101".data) []) ("tldr".data), "x".data),
             (cache_file (assigned_slug ("cs102!".data) []) ("tldr".data), "y".data)]) :=
  ⟨by decide,
    (C7_cache_clear_frame ("cs 101".data) ("cs102!".data) [] []
      [(cache_file (assigned_slug ("cs 101".data) []) ("tldr".data), "x".data),
       (cache_file (assigned_slug ("cs102!".data) []) ("tldr".data), "y".data)]
      _ _ rfl rfl (by decide)).1 ("tldr".data) ("x".data),
    (C7_cache_clear_frame ("cs 101".data) ("cs102!".data) [] []
      [(cache_file (assigned_slug ("cs 101".data) []) ("tldr".data), "x".data),
       (cache_file (assigned_slug ("cs102!".data) []) ("tldr".data), "y".data)]
      _ _ rfl rfl (by decide)).2 ("tldr".data) ("y".data)⟩

/-- `charVal` inverts `decChar` on digits. -/
theorem charVal_decChar (d : Nat) (h : d < 10) : charVal (decChar d) = d := by
  interval_cases d <;> decide

/-- With enough fuel, the decimal digit expansion evaluates back to its
input. -/
theorem decVal_decDigits : ∀ (fuel n : Nat), n ≤ fuel → decVal (decDigits fuel n) = n := by
  intro fuel
  induction fuel with
  | zero => intro n h; interval_cases n; rfl
  | succ f ih =>
    intro n h
    cases n with
    | zero => rfl
    | succ k =>
      have h10 : (k + 1) % 10 < 10 := Nat.mod_lt _ (by norm_num)
      have hdiv : (k + 1) / 10 ≤ f := by
        have : (k + 1) / 10 < k + 1 := Nat.div_lt_self (Nat.succ_pos k) (by norm_num)
        omega
      show charVal (decChar ((k + 1) % 10)) + 10 * decVal (decDigits f ((k + 1) / 10)) = k + 1
      rw [charVal_decChar _ h10, ih _ hdiv]
      exact Nat.mod_add_div (k + 1) 10

/-- Decimal rendering is injective on positive numbers. -/
theorem decStr_injective_pos (i j : Nat) (hi : 1 ≤ i) (hj : 1 ≤ j)
    (h : decStr i = decStr j) : i = j := by
  unfold decStr at h
  rw [if_neg (by omega), if_neg (by omega)] at h
  have h2 : decDigits i i = decDigits j j := by
    have := congrArg List.reverse h
    simpa using this
  have hi' := decVal_decDigits i i (le_refl i)
  have hj' := decVal_decDigits j j (le_refl j)
  rw [← hi', ← hj', h2]

/-- Candidate slugs with distinct positive suffix indices are distinct. -/
theorem cand_injective (base : Str) (i j : Nat) (hi : 1 ≤ i) (hj : 1 ≤ j)
    (h : cand base i = cand base j) : i = j := by
  unfold cand at h
  have h2 := List.append_cancel_left h
  have h3 : decStr i = decStr j := by injection h2
  exact decStr_injective_pos i j hi hj h3

/-- Pigeonhole: among `existing.length + 1` consecutive candidate indices
(starting from any positive index) some candidate is not in `existing`. -/
theorem exists_fresh_cand (base : Str) (existing : List Str) (i : Nat)
    (hi : 1 ≤ i) :
    ∃ j, i ≤ j ∧ j < i + existing.length + 1 ∧ cand base j ∉ existing := by
  by_contra hcon
  push_neg at hcon
  have hsub : (Finset.Icc i (i + existing.length)).image (cand base)
      ⊆ existing.toFinset := by
    intro x hx
    obtain ⟨j, hj, rfl⟩ := Finset.mem_image.mp hx
    rw [Finset.mem_Icc] at hj
    exact List.mem_toFinset.mpr (hcon j hj.1 (by omega))
  have hinj : Set.InjOn (cand base) (Finset.Icc i (i + existing.length)) := by
    intro j1 h1 j2 h2 heq
    rw [Finset.coe_Icc, Set.mem_Icc] at h1 h2
    exact cand_injective base j1 j2 (by omega) (by omega) heq
  have hcard := Finset.card_le_card hsub
  rw [Finset.card_image_of_injOn hinj, Nat.card_Icc] at hcard
  have := List.toFinset_card_le existing
  omega

/-- Specification of the fueled index search: whenever some fresh candidate
exists within the fuel window, the search returns the least index at or
after `i` whose candidate is not in `existing`. -/
theorem unique_slug_idx_spec (base : Str) (existing : List Str) :
    ∀ (fuel i : Nat),
      (∃ j, i ≤ j ∧ j < i + fuel ∧ cand base j ∉ existing) →
      i ≤ unique_slug_idx base existing fuel i
      ∧ cand base (unique_slug_idx base existing fuel i) ∉ existing
      ∧ ∀ j, i ≤ j → j < unique_slug_idx base existing fuel i →
          cand base j ∈ existing := by
  intro fuel
  induction fuel with
  | zero =>
    intro i h
    obtain ⟨j, hj1, hj2, _⟩ := h
    omega
  | succ f ih =>
    intro i h
    obtain ⟨j, hj1, hj2, hj3⟩ := h
    by_cases hmem : cand base i ∈ existing
    · have hne : j ≠ i := fun he => hj3 (he ▸ hmem)
      have hex : ∃ j', i + 1 ≤ j' ∧ j' < (i + 1) + f ∧ cand base j' ∉ existing :=
        ⟨j, by omega, by omega, hj3⟩
      obtain ⟨ih1, ih2, ih3⟩ := ih (i + 1) hex
      have hstep : unique_slug_idx base existing (f + 1) i
          = unique_slug_idx base existing f (i + 1) := by
        show (if cand base i ∈ existing then unique_slug_idx base existing f (i + 1)
          else i) = unique_slug_idx base existing f (i + 1)
        rw [if_pos hmem]
      refine ⟨by omega, by rw [hstep]; exact ih2, ?_⟩
      intro j' hj'1 hj'2
      rw [hstep] at hj'2
      by_cases he : j' = i
      · exact he ▸ hmem
      · exact ih3 j' (by omega) hj'2
    · have hstep : unique_slug_idx base existing (f + 1) i = i := by
        unfold unique_slug_idx
        simp [hmem]
      refine ⟨by rw [hstep], by rw [hstep]; exact hmem, ?_⟩
      intro j' hj'1 hj'2
      rw [hstep] at hj'2
      omega

/-- Specification of `_unique_slug`: the result is never in `existing`; it
is `base` itself when `base` is fresh, and otherwise the candidate with the
least suffix index `≥ 2` whose candidate is fresh. -/
theorem unique_slug_spec (base : Str) (existing : List Str) :
    unique_slug base existing ∉ existing
    ∧ (base ∉ existing → unique_slug base existing = base)
    ∧ (base ∈ existing →
        2 ≤ unique_slug_idx base existing (existing.length + 1) 2
        ∧ unique_slug base existing
            = cand base (unique_slug_idx base existing (existing.length + 1) 2)
        ∧ ∀ j, 2 ≤ j → j < unique_slug_idx base existing (existing.length + 1) 2 →
            cand base j ∈ existing) := by
  have hex0 := exists_fresh_cand base existing 2 (by omega)
  have hex : ∃ j, 2 ≤ j ∧ j < 2 + (existing.length + 1) ∧ cand base j ∉ existing := by
    obtain ⟨j, h1, h2, h3⟩ := hex0
    exact ⟨j, h1, by omega, h3⟩
  obtain ⟨hge, hnot, hmin⟩ :=
    unique_slug_idx_spec base existing (existing.length + 1) 2 hex
  by_cases hb : base ∈ existing
  · refine ⟨?_, fun h => absurd hb h, fun _ => ⟨hge, ?_, hmin⟩⟩
    · unfold unique_slug
      rw [if_pos hb]
      exact hnot
    · unfold unique_slug
      rw [if_pos hb]
  · refine ⟨?_, fun _ => ?_, fun h => absurd h hb⟩
    · unfold unique_slug
      rw [if_neg hb]
      exact hb
    · unfold unique_slug
      rw [if_neg hb]

/-- Over a sequence of uploads the assigned slugs are pairwise distinct and
avoid every slug already in the index. -/
theorem assign_all_spec (raws : List Str) : ∀ existing : List Str,
    (assign_all existing raws).Nodup
    ∧ ∀ s ∈ assign_all existing raws, s ∉ existing := by
  induction raws with
  | nil =>
    intro ex
    refine ⟨List.nodup_nil, ?_⟩
    intro s h
    simp [assign_all] at h
  | cons r rs ih =>
    intro ex
    obtain ⟨ih1, ih2⟩ := ih (assigned_slug r ex :: ex)
    have hunf : assign_all ex (r :: rs)
        = assigned_slug r ex :: assign_all (assigned_slug r ex :: ex) rs := rfl
    constructor
    · rw [hunf]
      have hn : assigned_slug r ex ∉ assign_all (assigned_slug r ex :: ex) rs := by
        intro hmem
        exact (ih2 _ hmem) (List.mem_cons_self _ _)
      exact List.nodup_cons.mpr ⟨hn, ih1⟩
    · intro s hs
      rw [hunf] at hs
      rcases List.mem_cons.mp hs with rfl | hs2
      · exact (unique_slug_spec (slugify r) ex).1
      · intro hmem
        exact (ih2 _ hs2) (List.mem_cons_of_mem _ hmem)

/-- C5: slugs assigned over any sequence of uploads are pairwise distinct
and distinct from all pre-existing slugs; the assignment is deterministic
given the existing slug set: the normalized base when it is fresh, otherwise
the first suffixed candidate `base-2`, `base-3`, … not already present. -/
theorem C5_slug_assignment (existing raws : List Str) (base : Str)
    (ex2 : List Str) :
    (assign_all existing raws).Nodup
    ∧ (∀ s ∈ assign_all existing raws, s ∉ existing)
    ∧ (slugify base ∉ ex2 → assigned_slug base ex2 = slugify base)
    ∧ (slugify base ∈ ex2 →
        2 ≤ unique_slug_idx (slugify base) ex2 (ex2.length + 1) 2
        ∧ assigned_slug base ex2
            = cand (slugify base) (unique_slug_idx (slugify base) ex2 (ex2.length + 1) 2)
        ∧ cand (slugify base) (unique_slug_idx (slugify base) ex2 (ex2.length + 1) 2) ∉ ex2
        ∧ ∀ j, 2 ≤ j → j < unique_slug_idx (slugify base) ex2 (ex2.length + 1) 2 →
            cand (slugify base) j ∈ ex2) := by
  obtain ⟨h1, h2⟩ := assign_all_spec raws existing
  obtain ⟨u1, u2, u3⟩ := unique_slug_spec (slugify base) ex2
  refine ⟨h1, h2, u2, fun hb => ?_⟩
  obtain ⟨a, b, c⟩ := u3 hb
  exact ⟨a, b, by rw [← b]; exact u1, c⟩

/-- Witness for C5: two colliding uploads get distinct slugs, and a double
collision is resolved with the suffix `-3`. -/
theorem C5_witness :
    (assign_all [] ["a b".data, "a-b".data]).Nodup
    ∧ assign_all [] ["a b".data, "a-b".data] = ["a-b".data, "a-b-2".data]
    ∧ "cs".data ∈ ["cs".data, "cs-2".data]
    ∧ assigned_slug ("cs".data) ["cs".data, "cs-2".data] = "cs-3".data :=
  ⟨(C5_slug_assignment [] ["a b".data, "a-b".data] ("cs".data)
      ["cs".data, "cs-2".data]).1,
    by decide, by decide,
    ((C5_slug_assignment [] ["a b".data, "a-b".data] ("cs".data)
      ["cs".data, "cs-2".data]).2.2.2 (by decide)).2.1.trans (by decide)⟩
